import Mathlib

/-!
Verification of the calendar / almanac core of the `dndme` repository
(`dndme/gametime.py`): the `Clock`, `Calendar` and `Almanac` classes.

The Python code is shallowly embedded as follows:
* Python ints are `Int`; Python floats are `ℝ` (the almanac's trigonometry);
* Python's `%` and `//` on ints are `Int.fmod` / `Int.fdiv` (floor convention);
* the ordered `months` dict of the calendar configuration is an association
  list `List (String × MonthInfo)` (a Python dict is ordered and has no
  duplicate keys);
* `eval` of the configured `leap_year_rule` string is modelled by a boolean
  function `Int → Bool` stored in the configuration;
* `str.lower()` is modelled by `lower` (ASCII lowercasing, which is what
  `lower()` does on the ASCII month names the program uses);
* functions that can raise on bad input return `Option` (`none` models the
  `"lol nope"` error return resp. a raised lookup error), and the almanac
  pipeline returns `PyRes` which distinguishes a caught `ValueError`
  (`math.acos` domain error) from any other uncaught failure;
* the `while` loops of `Calendar.adjust_date` are modelled with an explicit
  fuel argument; `none` means the fuel ran out or a lookup failed.
-/

namespace DM

/-- ASCII lowercase of a character, as Python's `str.lower` does on ASCII. -/
def lower_char (c : Char) : Char :=
  if 65 ≤ c.toNat ∧ c.toNat ≤ 90 then Char.ofNat (c.toNat + 32) else c

/-- Model of Python's `str.lower()` (the program only lowercases ASCII month
names). -/
def lower (s : String) : String := ⟨s.data.map lower_char⟩

/-- The `Time` namedtuple of `gametime.py`. -/
structure Time where
  hour : Int
  minute : Int
deriving DecidableEq

/-- The `Date` namedtuple of `gametime.py`. -/
structure Date where
  day : Int
  month : String
  year : Int
deriving DecidableEq

/-- The `Clock` class: day-length configuration plus the mutable time. -/
structure Clock where
  hours_in_day : Int
  minutes_in_hour : Int
  hour : Int
  minute : Int
deriving DecidableEq

/-- `Clock.adjust_time` (gametime.py lines 20-27).  Python's `%` and `//` on
ints are floor-convention, hence `Int.fmod` / `Int.fdiv`. -/
def Clock.adjust_time (c : Clock) (hours minutes : Int) : Clock :=
  { c with
    minute := (c.minute + minutes).fmod c.minutes_in_hour,
    hour := ((c.hour + hours) + (c.minute + minutes).fdiv c.minutes_in_hour).fmod
      c.hours_in_day }

/-- One entry of the configured `months` mapping. -/
structure MonthInfo where
  name : String
  days : Int
  leap_year_days : Option Int
deriving DecidableEq

/-- The calendar configuration (`cal_data`).  The `leap_year_rule` string,
which the source passes to `eval` after substituting the year, is modelled as
the boolean function of the year it evaluates to. -/
structure CalData where
  months : List (String × MonthInfo)
  leap_year_rule : Option (Int → Bool)
  hours_in_day : Int
  minutes_in_hour : Int
  solar_days_in_year : ℝ
  axial_tilt : ℝ
  ws_month : String
  ws_day : Int
  default_day : Int
  default_month : String
  default_year : Int

/-- The `Calendar` class: configuration plus the mutable current date. -/
@[ext]
structure Calendar where
  cal_data : CalData
  day : Int
  month : String
  year : Int

/-- `Calendar.__init__` (gametime.py lines 32-36). -/
def Calendar.init (cfg : CalData) : Calendar :=
  ⟨cfg, cfg.default_day, cfg.default_month, cfg.default_year⟩

/-- `Calendar.is_leap_year` (lines 58-62): no configured rule means `False`,
otherwise the rule is evaluated at the year. -/
def is_leap_year (cfg : CalData) (year : Int) : Bool :=
  match cfg.leap_year_rule with
  | none => false
  | some rule => rule year

/-- Day count of one month entry for a given year: the `leap_year_days`
override when the year is a leap year, else `days` (body of `days_in_month`
after the dict lookup, lines 53-56). -/
def month_days (cfg : CalData) (mi : MonthInfo) (year : Int) : Int :=
  if is_leap_year cfg year then mi.leap_year_days.getD mi.days else mi.days

/-- `Calendar.days_in_month` (lines 51-56); `none` models the `KeyError` when
the lowercased month is not a configured key. -/
def days_in_month (cfg : CalData) (month : String) (year : Int) : Option Int :=
  (List.lookup (lower month) cfg.months).map fun mi => month_days cfg mi year

/-- `Calendar.days_in_year` (lines 43-49): sum over all configured months. -/
def days_in_year (cfg : CalData) (year : Int) : Int :=
  (cfg.months.map fun e => month_days cfg e.2 year).sum

/-- `Calendar._date_is_valid` (lines 77-82). -/
def date_is_valid (cfg : CalData) (day : Int) (month : String) (year : Int) : Bool :=
  match days_in_month cfg month year with
  | none => false
  | some dim => decide (1 ≤ day) && decide (day ≤ dim)

/-- `Calendar.set_date` (lines 64-75).  A `none` argument is an omitted
keyword argument; `day or self.day` etc. replaces a falsy passed value
(`0` resp. `""`) by the current field.  The second component is the returned
value: `some "lol nope"` on validation failure (the code's sentinel error
string), `none` (Python `None`) on success. -/
def Calendar.set_date (c : Calendar) (day : Option Int) (month : Option String)
    (year : Option Int) : Calendar × Option String :=
  let d := match day with | none => c.day | some v => if v = 0 then c.day else v
  let m := match month with | none => c.month | some v => if v = "" then c.month else v
  let y := match year with | none => c.year | some v => if v = 0 then c.year else v
  if date_is_valid c.cal_data d m y then
    ({ c with day := d, month := m, year := y }, none)
  else (c, some "lol nope")

/-- The `for month_key in months` loop of `Calendar.day_of_year`
(lines 162-167): sum of `days_in_month` of the keys preceding `month`,
plus `day` when `month` is reached. -/
def doy_loop (cfg : CalData) (year day : Int) (month : String) :
    List (String × MonthInfo) → Option Int
  | [] => some 0
  | (k, _) :: rest =>
    if k = month then some day
    else (days_in_month cfg k year).bind fun dim =>
      (doy_loop cfg year day month rest).map fun t => dim + t

/-- `Calendar.day_of_year` (lines 151-169).  Falsy date fields default to the
calendar's current date; `none` models the `"lol nope"` error return on an
invalid date. -/
def Calendar.day_of_year (c : Calendar) (date : Date) : Option Int :=
  let d := if date.day = 0 then c.day else date.day
  let m := if date.month = "" then c.month else date.month
  let y := if date.year = 0 then c.year else date.year
  if date_is_valid c.cal_data d m y then doy_loop c.cal_data y d (lower m) c.cal_data.months
  else none

/-- `Calendar.days_since_date` (lines 128-149).  The `for i in range(1,
year_diff)` loop of the intervening years is the fold over
`(List.range year_diff.toNat).drop 1`, which is empty when
`year_diff ≤ 1` exactly as the guarded Python loop is. -/
def Calendar.days_since_date (c : Calendar) (date_then date_now : Date) : Option Int :=
  if date_now.year = date_then.year ∧ date_now.month = date_then.month ∧
      date_then.day ≤ date_now.day then
    some (date_now.day - date_then.day)
  else
    (c.day_of_year date_then).bind fun doy_then =>
      (c.day_of_year date_now).bind fun doy_now =>
        let part1 := days_in_year c.cal_data date_then.year - doy_then
        let year_diff := date_now.year - date_then.year
        let inter := ((List.range year_diff.toNat).drop 1).foldl
          (fun acc i => acc + days_in_year c.cal_data (date_then.year + (i : Int))) 0
        some (part1 + inter + (doy_now - 1))

/-- The ordered list of month keys (`list(self.cal_data['months'].keys())`,
line 85). -/
def month_keys (cfg : CalData) : List String := cfg.months.map Prod.fst

/-- Python's `list.index`: index of the first occurrence, `none` models the
raised `ValueError` when absent. -/
def find_index (key : String) : List String → Option Nat
  | [] => none
  | k :: rest => if k = key then some 0 else (find_index key rest).map (· + 1)

/-- `month_keys.index(self.month.lower())` (lines 93 and 114). -/
def month_index (cfg : CalData) (month : String) : Option Nat :=
  find_index (lower month) (month_keys cfg)

/-- The month move of the forward bleed-off loop (lines 92-102): next month
key in configured order, wrapping to the first month and incrementing the
year at the end of the list; returns the new month's `name` and the new year. -/
def roll_forward (cfg : CalData) (month : String) (year : Int) : Option (String × Int) :=
  (month_index cfg month).bind fun i =>
    if i + 1 = (month_keys cfg).length then
      ((month_keys cfg)[0]?).bind fun k =>
        (List.lookup k cfg.months).map fun mi => (mi.name, year + 1)
    else
      ((month_keys cfg)[i + 1]?).bind fun k =>
        (List.lookup k cfg.months).map fun mi => (mi.name, year)

/-- The month move of the backward bleed-off loop (lines 113-121): previous
month key, wrapping to the last month (`month_keys[-1]`) and decrementing the
year at the start of the list. -/
def roll_backward (cfg : CalData) (month : String) (year : Int) : Option (String × Int) :=
  (month_index cfg month).bind fun i =>
    if i = 0 then
      ((month_keys cfg)[(month_keys cfg).length - 1]?).bind fun k =>
        (List.lookup k cfg.months).map fun mi => (mi.name, year - 1)
    else
      ((month_keys cfg)[i - 1]?).bind fun k =>
        (List.lookup k cfg.months).map fun mi => (mi.name, year)

/-- The forward `while` loop of `Calendar.adjust_date` (lines 87-105), with
explicit fuel.  Each iteration bleeds `dim - day` days off, moves to the next
month with `day = 0`; on exit the remaining days are added. -/
def bleed_forward : Nat → Calendar → Int → Option Calendar
  | 0, _, _ => none
  | fuel + 1, s, days =>
    match days_in_month s.cal_data s.month s.year with
    | none => none
    | some dim =>
      if dim < s.day + days then
        match roll_forward s.cal_data s.month s.year with
        | none => none
        | some (m2, y2) =>
          bleed_forward fuel { s with day := 0, month := m2, year := y2 }
            (days - (dim - s.day))
      else some { s with day := s.day + days }

/-- The backward `while` loop of `Calendar.adjust_date` (lines 107-126), with
explicit fuel.  Each iteration bleeds `day` days off, moves to the previous
month and resets `day` to that month's length; on exit the remaining days are
subtracted. -/
def bleed_backward : Nat → Calendar → Int → Option Calendar
  | 0, _, _ => none
  | fuel + 1, s, days =>
    if s.day - days < 1 then
      match roll_backward s.cal_data s.month s.year with
      | none => none
      | some (m2, y2) =>
        match days_in_month s.cal_data m2 y2 with
        | none => none
        | some dim2 =>
          bleed_backward fuel { s with day := dim2, month := m2, year := y2 }
            (days - s.day)
    else some { s with day := s.day - days }

/-- `Calendar.adjust_date` (lines 84-126): forward bleed-off for positive
`days`, backward for negative (after `days = abs(days)`), no-op for zero. -/
def Calendar.adjust_date (fuel : Nat) (c : Calendar) (days : Int) : Option Calendar :=
  if 0 < days then bleed_forward fuel c days
  else if days < 0 then bleed_backward fuel c (-days)
  else some c

/-- One-day successor of a calendar state (proof device for the bleed-off
loops): next day in the same month, or the first day of the next month. -/
def succ_day (s : Calendar) : Option Calendar :=
  (days_in_month s.cal_data s.month s.year).bind fun dim =>
    if s.day < dim then some { s with day := s.day + 1 }
    else (roll_forward s.cal_data s.month s.year).map fun p =>
      { s with day := 1, month := p.1, year := p.2 }

/-- One-day predecessor of a calendar state: previous day in the same month,
or the last day of the previous month. -/
def pred_day (s : Calendar) : Option Calendar :=
  if 1 < s.day then some { s with day := s.day - 1 }
  else (roll_backward s.cal_data s.month s.year).bind fun p =>
    (days_in_month s.cal_data p.1 p.2).map fun dim2 =>
      { s with day := dim2, month := p.1, year := p.2 }

/-- `n`-fold iteration of `succ_day`. -/
def iter_succ : Nat → Calendar → Option Calendar
  | 0, s => some s
  | n + 1, s => (succ_day s).bind (iter_succ n)

/-- `n`-fold iteration of `pred_day`. -/
def iter_pred : Nat → Calendar → Option Calendar
  | 0, s => some s
  | n + 1, s => (pred_day s).bind (iter_pred n)

/-- Well-formedness of a calendar configuration, as the code relies on it:
each month's `name` lowercases to its key, keys are already lowercase (the
code looks months up by lowercased strings), every month has at least one
day (also in leap years), and keys are distinct (Python dict keys are). -/
@[reducible] def wf_cal (cfg : CalData) : Prop :=
  (∀ e ∈ cfg.months,
    lower e.2.name = e.1 ∧ lower e.1 = e.1 ∧ 1 ≤ e.2.days ∧ 1 ≤ e.2.leap_year_days.getD 1) ∧
  (cfg.months.map Prod.fst).Nodup

/-- A calendar state whose current date is valid: the current month is a
configured month (stored under its configured `name`), and the current day is
within the month. -/
def valid_state (s : Calendar) : Prop :=
  ∃ mi, List.lookup (lower s.month) s.cal_data.months = some mi ∧ mi.name = s.month ∧
    1 ≤ s.day ∧ s.day ≤ month_days s.cal_data mi s.year

open scoped Classical

/-- `math.radians`. -/
noncomputable def radians (x : ℝ) : ℝ := x * Real.pi / 180

/-- `math.degrees`. -/
noncomputable def degrees (x : ℝ) : ℝ := x * 180 / Real.pi

/-- Python's `int()` truncation toward zero on a real (float) value. -/
noncomputable def py_int (x : ℝ) : Int := if 0 ≤ x then ⌊x⌋ else -⌊-x⌋

/-- Result of a Python computation that can raise: `ok`, a raised
`ValueError` (the `math.acos` domain error the almanac catches), or any other
uncaught failure (`crash`, e.g. the `TypeError` after a `"lol nope"` return). -/
inductive PyRes (α : Type) where
  | ok : α → PyRes α
  | value_error : PyRes α
  | crash : PyRes α
deriving DecidableEq

/-- The `Almanac` class (lines 175-190): a reference to the calendar plus the
scalar configuration values copied at construction time. -/
structure Almanac where
  calendar : Calendar
  minutes_in_hour : Int
  hours_in_day : Int
  solar_days_in_year : ℝ
  axial_tilt : ℝ

/-- `Almanac.__init__` (lines 184-190). -/
def Almanac.init (c : Calendar) : Almanac :=
  ⟨c, c.cal_data.minutes_in_hour, c.cal_data.hours_in_day,
    c.cal_data.solar_days_in_year, c.cal_data.axial_tilt⟩

/-- `Almanac.depression_civil` (line 177). -/
noncomputable def depression_civil : ℝ := -6

/-- `Almanac.depression_nautical` (line 178). -/
noncomputable def depression_nautical : ℝ := -12

/-- `Almanac.depression_astronomical` (line 179). -/
noncomputable def depression_astronomical : ℝ := -18

/-- `Almanac.rising` (line 181). -/
noncomputable def rising : ℝ := 1

/-- `Almanac.setting` (line 182). -/
noncomputable def setting : ℝ := -1

/-- The winter-solstice anchor date used by `solar_declination`
(lines 267-274): the same-year solstice when the date is on/after the
configured solstice day in the solstice month, else the previous year's. -/
def ws_anchor (a : Almanac) (date : Date) : Date :=
  let cfg := a.calendar.cal_data
  let ws_year := if date.month = cfg.ws_month ∧ cfg.ws_day ≤ date.day then date.year
    else date.year - 1
  ⟨cfg.ws_day, lower cfg.ws_month, ws_year⟩

/-- `Almanac.solar_declination` (lines 262-285). -/
noncomputable def Almanac.solar_declination (a : Almanac) (date : Date) : Option ℝ :=
  (a.calendar.days_since_date (ws_anchor a date) date).map fun (ds : Int) =>
    let deg_per_day := 360 / a.solar_days_in_year
    let rot := (ds : ℝ) * deg_per_day
    let declination := -a.axial_tilt * Real.cos (radians rot)
    declination

/-- The `cos_hour_angle` expression of `Almanac.hour_angle` (lines 255-258). -/
noncomputable def Almanac.cos_hour_angle (a : Almanac) (depression : ℝ) (date : Date)
    (latitude : ℝ) : Option ℝ :=
  (a.solar_declination date).map fun declination =>
    (Real.sin (radians depression) -
        Real.sin (radians latitude) * Real.sin (radians declination)) /
      (Real.cos (radians latitude) * Real.cos (radians declination))

/-- `Almanac.hour_angle` (lines 247-260): `value_error` is the domain error
`math.acos` raises when the cosine lies outside `[-1, 1]`; `crash` is an
uncaught failure from an invalid date. -/
noncomputable def Almanac.hour_angle (a : Almanac) (depression : ℝ) (date : Date)
    (latitude : ℝ) : PyRes ℝ :=
  match a.cos_hour_angle depression date latitude with
  | none => .crash
  | some cha =>
    if cha < -1 ∨ 1 < cha then .value_error else .ok (degrees (Real.arccos cha))

/-- `Almanac.calc_time` (lines 226-245).  `hour = int(time_utc //
minutes_in_hour)` is the floor of the quotient and `minute = int(time_utc %
minutes_in_hour)` truncates the float remainder `time_utc - m * (time_utc //
m)`. -/
noncomputable def Almanac.calc_time (a : Almanac) (depression direction : ℝ)
    (date : Date) (latitude : ℝ) : PyRes (Time × Date) :=
  match a.hour_angle depression date latitude with
  | .crash => .crash
  | .value_error => .value_error
  | .ok ha =>
    let hour_angle_signed := direction * ha
    let delta := -hour_angle_signed
    let time_diff := 4 * delta
    let noon_minutes := ((a.hours_in_day : ℝ) / 2) * (a.minutes_in_hour : ℝ)
    let time_utc := noon_minutes + time_diff
    let hour : Int := ⌊time_utc / (a.minutes_in_hour : ℝ)⌋
    let minute : Int := py_int (time_utc - (a.minutes_in_hour : ℝ) * (hour : ℝ))
    if a.hours_in_day - 1 < hour then
      .ok (⟨hour - a.hours_in_day, minute⟩, ⟨date.day + 1, date.month, date.year⟩)
    else if hour < 0 then
      .ok (⟨hour + a.hours_in_day, minute⟩, ⟨date.day - 1, date.month, date.year⟩)
    else .ok (⟨hour, minute⟩, ⟨date.day, date.month, date.year⟩)

/-- The shared `try: calc_time ... except ValueError: return None` pattern of
the four public almanac methods (lines 192-224). -/
noncomputable def Almanac.try_calc (a : Almanac) (depression direction : ℝ)
    (date : Date) (latitude : ℝ) : PyRes (Option (Time × Date)) :=
  match a.calc_time depression direction date latitude with
  | .ok x => .ok (some x)
  | .value_error => .ok none
  | .crash => .crash

/-- The `if not depression: depression = self.depression_civil` default of
`dawn` and `dusk` (lines 193-194 and 217-218): a falsy (zero) depression is
replaced by civil twilight. -/
noncomputable def eff_depression (depression : ℝ) : ℝ :=
  if depression = 0 then depression_civil else depression

/-- `Almanac.dawn` (lines 192-200); the `depression` argument defaults to `0`
in the source. -/
noncomputable def Almanac.dawn (a : Almanac) (date : Date) (latitude : ℝ)
    (depression : ℝ) : PyRes (Option (Time × Date)) :=
  a.try_calc (eff_depression depression) rising date latitude

/-- `Almanac.sunrise` (lines 202-207). -/
noncomputable def Almanac.sunrise (a : Almanac) (date : Date) (latitude : ℝ) :
    PyRes (Option (Time × Date)) :=
  a.try_calc (-0.833) rising date latitude

/-- `Almanac.sunset` (lines 209-214). -/
noncomputable def Almanac.sunset (a : Almanac) (date : Date) (latitude : ℝ) :
    PyRes (Option (Time × Date)) :=
  a.try_calc (-0.833) setting date latitude

/-- `Almanac.dusk` (lines 216-224). -/
noncomputable def Almanac.dusk (a : Almanac) (date : Date) (latitude : ℝ)
    (depression : ℝ) : PyRes (Option (Time × Date)) :=
  a.try_calc (eff_depression depression) setting date latitude

/-- The example configuration of the specification: the standard 12-month
365/366-day year. -/
def ex_months : List (String × MonthInfo) :=
  [("jan", ⟨"jan", 31, none⟩), ("feb", ⟨"feb", 28, some 29⟩), ("mar", ⟨"mar", 31, none⟩),
   ("apr", ⟨"apr", 30, none⟩), ("may", ⟨"may", 31, none⟩), ("jun", ⟨"jun", 30, none⟩),
   ("jul", ⟨"jul", 31, none⟩), ("aug", ⟨"aug", 31, none⟩), ("sep", ⟨"sep", 30, none⟩),
   ("oct", ⟨"oct", 31, none⟩), ("nov", ⟨"nov", 30, none⟩), ("dec", ⟨"dec", 31, none⟩)]

/-- The example calendar configuration of the specification:
`leap_year_rule = "year % 4 == 0"`, `hours_in_day = 24`,
`minutes_in_hour = 60`, `axial_tilt = 23.5`, `solar_days_in_year = 365`,
winter solstice 21 dec, default date 1 jan 2020. -/
noncomputable def ex_cal_data : CalData :=
  { months := ex_months
    leap_year_rule := some fun y => y % 4 == 0
    hours_in_day := 24
    minutes_in_hour := 60
    solar_days_in_year := 365
    axial_tilt := 23.5
    ws_month := "dec"
    ws_day := 21
    default_day := 1
    default_month := "jan"
    default_year := 2020 }

/-- The example calendar at its default date 1 jan 2020. -/
noncomputable def ex_calendar : Calendar := Calendar.init ex_cal_data

/-- The example almanac. -/
noncomputable def ex_almanac : Almanac := Almanac.init ex_calendar

/-- The example configuration with `axial_tilt = 0` (a flat axis is a legal
configuration and makes the solar declination vanish identically). -/
noncomputable def flat_cal_data : CalData := { ex_cal_data with axial_tilt := 0 }

/-- Almanac over the flat-axis configuration. -/
noncomputable def flat_almanac : Almanac := Almanac.init (Calendar.init flat_cal_data)

/-! ### Helper lemmas about association-list lookup -/

/-- With pairwise-distinct keys, membership determines the lookup result. -/
theorem lookup_of_mem_nodup {β : Type} {l : List (String × β)} {k : String} {b : β}
    (hnd : (l.map Prod.fst).Nodup) (h : (k, b) ∈ l) : List.lookup k l = some b := by
  induction l with
  | nil => cases h
  | cons e rest ih =>
    obtain ⟨k2, b2⟩ := e
    rw [List.map_cons, List.nodup_cons] at hnd
    rcases List.mem_cons.mp h with h1 | h1
    · obtain ⟨hk, hb⟩ := Prod.mk.injEq .. ▸ h1
      subst hk; subst hb
      simp [List.lookup]
    · have hk : k ≠ k2 := by
        rintro rfl
        exact hnd.1 (List.mem_map.mpr ⟨(k, b), h1, rfl⟩)
      have : (k == k2) = false := beq_eq_false_iff_ne.mpr hk
      simp [List.lookup, this]
      exact ih hnd.2 h1

/-- A successful lookup comes from a member of the list. -/
theorem mem_of_lookup {β : Type} {l : List (String × β)} {k : String} {b : β}
    (h : List.lookup k l = some b) : (k, b) ∈ l := by
  induction l with
  | nil => simp [List.lookup] at h
  | cons e rest ih =>
    obtain ⟨k2, b2⟩ := e
    by_cases hk : k = k2
    · subst hk
      simp [List.lookup] at h
      subst h
      exact List.mem_cons_self ..
    · have : (k == k2) = false := beq_eq_false_iff_ne.mpr hk
      simp [List.lookup, this] at h
      exact List.mem_cons_of_mem _ (ih h)

/-! ### Claim C7: Clock.adjust_time -/

/-- Dividing out an inner modulus: for positive `m` and `D`,
`(a mod (D*m)) div m = (a div m) mod D`. -/
theorem emod_mul_ediv_eq {a m D : Int} (hm : 0 < m) (hD : 0 < D) :
    (a % (D * m)) / m = (a / m) % D := by
  have hDm : (0 : Int) < D * m := mul_pos hD hm
  have h1 : D * m * (a / (D * m)) + a % (D * m) = a := Int.ediv_add_emod a (D * m)
  have hr0 : 0 ≤ a % (D * m) := Int.emod_nonneg a hDm.ne'
  have hr1 : a % (D * m) < D * m := Int.emod_lt_of_pos a hDm
  have h2 : a / m = a % (D * m) / m + (D * (a / (D * m))) := by
    conv_lhs => rw [← h1]
    rw [show D * m * (a / (D * m)) + a % (D * m)
        = a % (D * m) + m * (D * (a / (D * m))) by ring]
    exact Int.add_mul_ediv_left _ _ hm.ne'
  rw [h2, show a % (D * m) / m + D * (a / (D * m))
      = a % (D * m) / m + D * (a / (D * m)) from rfl]
  rw [Int.add_mul_emod_self_left]
  rw [Int.emod_eq_of_lt (Int.ediv_nonneg hr0 hm.le)
    ((Int.ediv_lt_iff_lt_mul hm).mpr hr1)]

/-- Claim C7: for every in-bounds clock state and all signed `hours` and
`minutes`, `adjust_time` sets the time to the hour/minute decomposition of
the total minute count modulo `hours_in_day * minutes_in_hour`; the `Time`
bounds are preserved and the configuration fields are unchanged. -/
theorem claim_C7 (c : Clock) (hours minutes : Int)
    (hD : 0 < c.hours_in_day) (hM : 0 < c.minutes_in_hour)
    (hh0 : 0 ≤ c.hour) (hh1 : c.hour < c.hours_in_day)
    (hm0 : 0 ≤ c.minute) (hm1 : c.minute < c.minutes_in_hour) :
    (c.adjust_time hours minutes).hour =
      ((c.hour * c.minutes_in_hour + c.minute + hours * c.minutes_in_hour + minutes) %
        (c.hours_in_day * c.minutes_in_hour)) / c.minutes_in_hour ∧
    (c.adjust_time hours minutes).minute =
      ((c.hour * c.minutes_in_hour + c.minute + hours * c.minutes_in_hour + minutes) %
        (c.hours_in_day * c.minutes_in_hour)) % c.minutes_in_hour ∧
    0 ≤ (c.adjust_time hours minutes).hour ∧
    (c.adjust_time hours minutes).hour < c.hours_in_day ∧
    0 ≤ (c.adjust_time hours minutes).minute ∧
    (c.adjust_time hours minutes).minute < c.minutes_in_hour ∧
    (c.adjust_time hours minutes).hours_in_day = c.hours_in_day ∧
    (c.adjust_time hours minutes).minutes_in_hour = c.minutes_in_hour := by
  set S := c.hour * c.minutes_in_hour + c.minute + hours * c.minutes_in_hour + minutes
    with hS
  have hDM : (0 : Int) < c.hours_in_day * c.minutes_in_hour := mul_pos hD hM
  have hdvd : c.minutes_in_hour ∣ c.hours_in_day * c.minutes_in_hour :=
    Dvd.intro_left _ rfl
  have hmin : (c.adjust_time hours minutes).minute = S % c.minutes_in_hour := by
    simp only [Clock.adjust_time]
    rw [Int.fmod_eq_emod _ hM.le]
    rw [show S = (c.minute + minutes) + (c.hour + hours) * c.minutes_in_hour by rw [hS]; ring]
    rw [Int.add_mul_emod_self]
  have hhour : (c.adjust_time hours minutes).hour = (S / c.minutes_in_hour) % c.hours_in_day := by
    simp only [Clock.adjust_time]
    rw [Int.fmod_eq_emod _ hD.le, Int.fdiv_eq_ediv _ hM.le]
    have h3 : S / c.minutes_in_hour = (c.minute + minutes) / c.minutes_in_hour
        + (c.hour + hours) := by
      rw [show S = (c.minute + minutes) + (c.hour + hours) * c.minutes_in_hour by rw [hS]; ring]
      exact Int.add_mul_ediv_right _ _ hM.ne'
    rw [h3, add_comm (c.hour + hours) _]
  refine ⟨?_, ?_, ?_, ?_, ?_, ?_, rfl, rfl⟩
  · rw [hhour, emod_mul_ediv_eq hM hD]
  · rw [hmin, Int.emod_emod_of_dvd _ hdvd]
  · rw [hhour]; exact Int.emod_nonneg _ hD.ne'
  · rw [hhour]; exact Int.emod_lt_of_pos _ hD
  · rw [hmin]; exact Int.emod_nonneg _ hM.ne'
  · rw [hmin]; exact Int.emod_lt_of_pos _ hM

/-- Witness for C7 at the clock `24×60` at `05:30`, adjusted by
`-3` hours and `+200` minutes: the result is `05:50`. -/
theorem claim_C7_witness :
    (Clock.adjust_time ⟨24, 60, 5, 30⟩ (-3) 200).hour = 5 ∧
    (Clock.adjust_time ⟨24, 60, 5, 30⟩ (-3) 200).minute = 50 := by
  have h := claim_C7 ⟨24, 60, 5, 30⟩ (-3) 200 (by decide) (by decide) (by decide)
    (by decide) (by decide) (by decide)
  exact ⟨h.1.trans (by decide), h.2.1.trans (by decide)⟩

/-! ### Claim C1: Calendar.set_date -/

/-- Counterexample to C1 as stated: the triple `(0, "feb", 2020)` fails date
validation, yet `set_date(0, "feb", 2020)` on the calendar at `1 jan 2020`
succeeds and moves the calendar to `1 feb 2020` (the falsy day argument `0`
is replaced by the current day before validation). -/
theorem claim_C1_counterexample :
    date_is_valid ex_cal_data 0 "feb" 2020 = false ∧
    ex_calendar.set_date (some 0) (some "feb") (some 2020) =
      (⟨ex_cal_data, 1, "feb", 2020⟩, none) ∧
    ex_calendar.month = "jan" :=
  ⟨by decide, rfl, rfl⟩

/-- Claim C1, amended to truthy arguments: for every day/month/year triple
with `day ≠ 0`, `month ≠ ""`, `year ≠ 0` (a falsy component is first replaced
by the corresponding current field), a triple failing date validation makes
`set_date` fail with the error return and leave the calendar unchanged, and a
valid triple replaces all three fields together. -/
theorem claim_C1 (c : Calendar) (d : Int) (m : String) (y : Int)
    (hd : d ≠ 0) (hm : m ≠ "") (hy : y ≠ 0) :
    (date_is_valid c.cal_data d m y = false →
      c.set_date (some d) (some m) (some y) = (c, some "lol nope")) ∧
    (date_is_valid c.cal_data d m y = true →
      c.set_date (some d) (some m) (some y) =
        ({ c with day := d, month := m, year := y }, none)) := by
  simp only [Calendar.set_date, if_neg hd, if_neg hm, if_neg hy]
  constructor <;> intro h <;> simp [h]

/-- Witness for C1 (the specification's own example): `set_date(30, "feb",
2021)` fails (February 2021 has 28 days) and the calendar is unchanged. -/
theorem claim_C1_witness :
    ex_calendar.set_date (some 30) (some "feb") (some 2021) =
      (ex_calendar, some "lol nope") :=
  (claim_C1 ex_calendar 30 "feb" 2021 (by decide) (by decide) (by decide)).1 (by decide)

/-! ### Claim C3: days_since_date over a leap year -/

/-- Counterexample to C3 as stated: with the example configuration,
`days_since_date(Date(1, "jan", 2020), Date(1, "jan", 2021))` does not
return 366. -/
theorem claim_C3_counterexample :
    ex_calendar.days_since_date ⟨1, "jan", 2020⟩ ⟨1, "jan", 2021⟩ ≠ some 366 := by
  decide

/-- Claim C3, amended: the call returns 365 — the code's final
`day_of_year(date_now) - 1` term excludes the current partial day, so the
366 days of leap year 2020 are counted as 365. -/
theorem claim_C3 :
    ex_calendar.days_since_date ⟨1, "jan", 2020⟩ ⟨1, "jan", 2021⟩ = some 365 := by
  decide

/-! ### Claim C6: day_of_year bounds -/

/-- One configured month has at least one day in any year. -/
theorem month_days_pos {cfg : CalData} (hw : wf_cal cfg) {e : String × MonthInfo}
    (he : e ∈ cfg.months) (year : Int) : 1 ≤ month_days cfg e.2 year := by
  obtain ⟨-, -, h1, h2⟩ := hw.1 e he
  unfold month_days
  split
  · rcases hld : e.2.leap_year_days with - | dd
    · simpa using h1
    · rw [hld, Option.getD_some] at h2
      simpa using h2
  · exact h1

/-- Sum of the month lengths of a sublist of configured months is
nonnegative (every configured month has at least one day). -/
theorem month_sum_nonneg {cfg : CalData} (hw : wf_cal cfg) (year : Int)
    (L : List (String × MonthInfo)) (hsub : ∀ e ∈ L, e ∈ cfg.months) :
    0 ≤ (L.map fun e => month_days cfg e.2 year).sum := by
  apply List.sum_nonneg
  intro x hx
  obtain ⟨e, he, rfl⟩ := List.mem_map.mp hx
  have := month_days_pos hw (hsub e he) year
  omega

/-- Bounds for the `day_of_year` summation loop: when the searched month is a
key of the scanned sublist, whose entries are all configured, the result is
between 1 and the sum of the sublist's month lengths. -/
theorem doy_loop_bounds {cfg : CalData} {y d : Int} {m : String}
    (hw : wf_cal cfg) (hd1 : 1 ≤ d)
    (hdm : ∀ mi, List.lookup m cfg.months = some mi → d ≤ month_days cfg mi y) :
    ∀ L : List (String × MonthInfo), (∀ e ∈ L, e ∈ cfg.months) →
      m ∈ L.map Prod.fst →
      ∀ v, doy_loop cfg y d m L = some v →
        1 ≤ v ∧ v ≤ (L.map fun e => month_days cfg e.2 y).sum := by
  intro L
  induction L with
  | nil => intro _ hmem; cases hmem
  | cons e rest ih =>
    intro hsub hmem v hloop
    obtain ⟨k, mi⟩ := e
    by_cases hk : k = m
    · subst hk
      simp only [doy_loop, if_true, Option.some.injEq] at hloop
      subst hloop
      have hmem2 : (k, mi) ∈ cfg.months := hsub (k, mi) (List.mem_cons_self ..)
      have hlk : List.lookup k cfg.months = some mi := lookup_of_mem_nodup hw.2 hmem2
      have hdmi : d ≤ month_days cfg mi y := hdm mi hlk
      refine ⟨hd1, ?_⟩
      simp only [List.map_cons, List.sum_cons]
      have := month_sum_nonneg hw y rest fun e he =>
        hsub e (List.mem_cons_of_mem _ he)
      omega
    · simp only [doy_loop, if_neg hk, Option.bind_eq_some, Option.map_eq_some'] at hloop
      obtain ⟨dim, hdim, t, ht, rfl⟩ := hloop
      have hmem2 : (k, mi) ∈ cfg.months := hsub (k, mi) (List.mem_cons_self ..)
      obtain ⟨hname, hklow, -, -⟩ := hw.1 (k, mi) hmem2
      have hlk : days_in_month cfg k y = some (month_days cfg mi y) := by
        unfold days_in_month
        rw [hklow, lookup_of_mem_nodup hw.2 hmem2]
        rfl
      rw [hlk, Option.some.injEq] at hdim
      subst hdim
      have hmem3 : m ∈ rest.map Prod.fst := by
        rcases List.mem_cons.mp hmem with h | h
        · exact absurd h.symm hk
        · exact h
      obtain ⟨h1, h2⟩ := ih (fun e he => hsub e (List.mem_cons_of_mem _ he)) hmem3 t ht
      have hdimpos : 1 ≤ month_days cfg mi y := month_days_pos hw hmem2 y
      refine ⟨by omega, ?_⟩
      simp only [List.map_cons, List.sum_cons]
      omega

/-- Claim C6: for every well-formed configuration and every date with truthy
fields (so that the calendar's current-date defaulting does not apply) on
which `day_of_year` succeeds — i.e. the date is valid — the result lies
between 1 and `days_in_year` of the date's year. -/
theorem claim_C6 (c : Calendar) (date : Date) (v : Int)
    (hw : wf_cal c.cal_data)
    (hd : date.day ≠ 0) (hm : date.month ≠ "") (hy : date.year ≠ 0)
    (h : c.day_of_year date = some v) :
    1 ≤ v ∧ v ≤ days_in_year c.cal_data date.year := by
  rw [Calendar.day_of_year] at h
  simp only [if_neg hd, if_neg hm, if_neg hy] at h
  by_cases hvalid : date_is_valid c.cal_data date.day date.month date.year = true
  swap
  · rw [if_neg hvalid] at h; cases h
  rw [if_pos hvalid] at h
  unfold date_is_valid at hvalid
  rcases hdim : days_in_month c.cal_data date.month date.year with - | dim
  · rw [hdim] at hvalid; cases hvalid
  rw [hdim] at hvalid
  simp only [Bool.and_eq_true, decide_eq_true_eq] at hvalid
  obtain ⟨hd1, hd2⟩ := hvalid
  unfold days_in_month at hdim
  rw [Option.map_eq_some'] at hdim
  obtain ⟨mi, hlk, hmd⟩ := hdim
  have hbounds := doy_loop_bounds (y := date.year) (d := date.day)
    (m := lower date.month) hw hd1
    (fun mi2 hlk2 => by
      rw [hlk, Option.some.injEq] at hlk2
      subst hlk2
      omega)
    c.cal_data.months (fun e he => he)
    (List.mem_map.mpr ⟨(lower date.month, mi), mem_of_lookup hlk, rfl⟩)
    v h
  exact hbounds

/-- Witness for C6: `day_of_year(Date(15, "mar", 2021))` in the example
configuration is 74, between 1 and the 365 days of 2021. -/
theorem claim_C6_witness :
    1 ≤ (74 : Int) ∧ (74 : Int) ≤ days_in_year ex_cal_data 2021 :=
  claim_C6 ex_calendar ⟨15, "mar", 2021⟩ 74 (by decide) (by decide) (by decide)
    (by decide) (by decide)

/-! ### Claims C2 and C8: adjust_date round-trip and termination -/

/-- An indexed element is a member. -/
theorem mem_of_getElem {α : Type} {l : List α} {i : Nat} {a : α} (h : l[i]? = some a) :
    a ∈ l := by
  obtain ⟨hlt, rfl⟩ := List.getElem?_eq_some.mp h
  exact List.mem_iff_getElem.mpr ⟨i, hlt, rfl⟩

/-- A member has an index. -/
theorem getElem_of_mem {α : Type} {l : List α} {a : α} (h : a ∈ l) :
    ∃ i : Nat, l[i]? = some a := by
  obtain ⟨i, hlt, rfl⟩ := List.mem_iff_getElem.mp h
  exact ⟨i, List.getElem?_eq_getElem hlt⟩

/-- `find_index` finds its key. -/
theorem find_index_getElem {key : String} :
    ∀ {l : List String} {i : Nat}, find_index key l = some i → l[i]? = some key := by
  intro l
  induction l with
  | nil => intro i h; cases h
  | cons k rest ih =>
    intro i h
    by_cases hk : k = key
    · rw [find_index, if_pos hk, Option.some.injEq] at h
      subst h
      rw [List.getElem?_cons_zero, hk]
    · rw [find_index, if_neg hk, Option.map_eq_some'] at h
      obtain ⟨j, hj, rfl⟩ := h
      rw [List.getElem?_cons_succ]
      exact ih hj

/-- On a duplicate-free list, `find_index` returns the index of the key. -/
theorem find_index_of_getElem {key : String} :
    ∀ {l : List String}, l.Nodup → ∀ {i : Nat}, l[i]? = some key →
      find_index key l = some i := by
  intro l
  induction l with
  | nil => intro _ i h; cases h
  | cons k rest ih =>
    intro hnd i h
    rw [List.nodup_cons] at hnd
    cases i with
    | zero =>
      rw [List.getElem?_cons_zero, Option.some.injEq] at h
      rw [find_index, if_pos h]
    | succ j =>
      rw [List.getElem?_cons_succ] at h
      have hk : k ≠ key := fun hkey => hnd.1 (hkey ▸ mem_of_getElem h)
      rw [find_index, if_neg hk, ih hnd.2 h]
      rfl

/-- The index of a configured month, computed from its `name`. -/
theorem month_index_of_getElem {cfg : CalData} (hw : wf_cal cfg) {i : Nat}
    {k : String} {mi : MonthInfo} (hi : cfg.months[i]? = some (k, mi)) :
    month_index cfg mi.name = some i := by
  have hmem : (k, mi) ∈ cfg.months := mem_of_getElem hi
  obtain ⟨hname, -, -, -⟩ := hw.1 (k, mi) hmem
  have hkeys : (month_keys cfg)[i]? = some k := by
    rw [month_keys, List.getElem?_map, hi]
    rfl
  rw [month_index, hname]
  exact find_index_of_getElem hw.2 hkeys

/-- A helper: the key list element at an index of the month list. -/
theorem month_keys_getElem {cfg : CalData} {i : Nat} {k : String} {mi : MonthInfo}
    (hi : cfg.months[i]? = some (k, mi)) : (month_keys cfg)[i]? = some k := by
  rw [month_keys, List.getElem?_map, hi]
  rfl

/-- Behaviour of the forward month move at a configured month: it lands on
the next configured month (wrapping to the first and incrementing the year at
the end of the list). -/
theorem roll_forward_spec {cfg : CalData} (hw : wf_cal cfg) {i : Nat}
    {k : String} {mi : MonthInfo} (hi : cfg.months[i]? = some (k, mi)) (year : Int) :
    ∃ k2 mi2,
      cfg.months[if i + 1 = cfg.months.length then 0 else i + 1]? = some (k2, mi2) ∧
      roll_forward cfg mi.name year =
        some (mi2.name, if i + 1 = cfg.months.length then year + 1 else year) := by
  have hlt : i < cfg.months.length := (List.getElem?_eq_some.mp hi).1
  have hlen : (month_keys cfg).length = cfg.months.length := by
    rw [month_keys, List.length_map]
  by_cases hwrap : i + 1 = cfg.months.length
  · have hjlt : 0 < cfg.months.length := by omega
    obtain ⟨⟨k2, mi2⟩, hj2⟩ : ∃ e, cfg.months[0]? = some e :=
      ⟨cfg.months[0], List.getElem?_eq_getElem hjlt⟩
    refine ⟨k2, mi2, by rw [if_pos hwrap]; exact hj2, ?_⟩
    rw [roll_forward, month_index_of_getElem hw hi, Option.some_bind,
      if_pos (by rw [hlen]; exact hwrap), month_keys_getElem hj2, Option.some_bind,
      lookup_of_mem_nodup hw.2 (mem_of_getElem hj2), Option.map_some', if_pos hwrap]
  · have hjlt : i + 1 < cfg.months.length := by omega
    obtain ⟨⟨k2, mi2⟩, hj2⟩ : ∃ e, cfg.months[i + 1]? = some e :=
      ⟨cfg.months[i + 1], List.getElem?_eq_getElem hjlt⟩
    refine ⟨k2, mi2, by rw [if_neg hwrap]; exact hj2, ?_⟩
    rw [roll_forward, month_index_of_getElem hw hi, Option.some_bind,
      if_neg (by rw [hlen]; exact hwrap), month_keys_getElem hj2, Option.some_bind,
      lookup_of_mem_nodup hw.2 (mem_of_getElem hj2), Option.map_some', if_neg hwrap]

/-- Behaviour of the backward month move at a configured month: it lands on
the previous configured month (wrapping to the last, `month_keys[-1]`, and
decrementing the year at the start of the list). -/
theorem roll_backward_spec {cfg : CalData} (hw : wf_cal cfg) {i : Nat}
    {k : String} {mi : MonthInfo} (hi : cfg.months[i]? = some (k, mi)) (year : Int) :
    ∃ k2 mi2,
      cfg.months[if i = 0 then cfg.months.length - 1 else i - 1]? = some (k2, mi2) ∧
      roll_backward cfg mi.name year =
        some (mi2.name, if i = 0 then year - 1 else year) := by
  have hlt : i < cfg.months.length := (List.getElem?_eq_some.mp hi).1
  have hlen : (month_keys cfg).length = cfg.months.length := by
    rw [month_keys, List.length_map]
  by_cases hzero : i = 0
  · have hjlt : cfg.months.length - 1 < cfg.months.length := by omega
    obtain ⟨⟨k2, mi2⟩, hj2⟩ : ∃ e, cfg.months[cfg.months.length - 1]? = some e :=
      ⟨cfg.months[cfg.months.length - 1], List.getElem?_eq_getElem hjlt⟩
    refine ⟨k2, mi2, by rw [if_pos hzero]; exact hj2, ?_⟩
    rw [roll_backward, month_index_of_getElem hw hi, Option.some_bind,
      if_pos hzero]
    rw [show (month_keys cfg).length - 1 = cfg.months.length - 1 by omega]
    rw [month_keys_getElem hj2, Option.some_bind,
      lookup_of_mem_nodup hw.2 (mem_of_getElem hj2), Option.map_some', if_pos hzero]
  · have hjlt : i - 1 < cfg.months.length := by omega
    obtain ⟨⟨k2, mi2⟩, hj2⟩ : ∃ e, cfg.months[i - 1]? = some e :=
      ⟨cfg.months[i - 1], List.getElem?_eq_getElem hjlt⟩
    refine ⟨k2, mi2, by rw [if_neg hzero]; exact hj2, ?_⟩
    rw [roll_backward, month_index_of_getElem hw hi, Option.some_bind,
      if_neg hzero, month_keys_getElem hj2, Option.some_bind,
      lookup_of_mem_nodup hw.2 (mem_of_getElem hj2), Option.map_some', if_neg hzero]

/-- Lookup of a configured month under the lowercased `name` it is stored
back into the calendar state with. -/
theorem lookup_of_getElem {cfg : CalData} (hw : wf_cal cfg) {i : Nat}
    {k : String} {mi : MonthInfo} (hi : cfg.months[i]? = some (k, mi)) :
    List.lookup (lower mi.name) cfg.months = some mi := by
  have hmem := mem_of_getElem hi
  obtain ⟨hname, -, -, -⟩ := hw.1 _ hmem
  rw [hname]
  exact lookup_of_mem_nodup hw.2 hmem

/-- `days_in_month` of a configured month, by name. -/
theorem days_in_month_of_getElem {cfg : CalData} (hw : wf_cal cfg) {i : Nat}
    {k : String} {mi : MonthInfo} (hi : cfg.months[i]? = some (k, mi)) (year : Int) :
    days_in_month cfg mi.name year = some (month_days cfg mi year) := by
  rw [days_in_month, lookup_of_getElem hw hi]
  rfl

/-- Stepping one day forward from a valid state succeeds, preserves the
configuration and validity, and is undone by `pred_day`. -/
theorem succ_day_pred {s : Calendar} (hw : wf_cal s.cal_data) (hv : valid_state s)
    {r : Calendar} (h : succ_day s = some r) :
    r.cal_data = s.cal_data ∧ valid_state r ∧ pred_day r = some s := by
  obtain ⟨mi, hlk, hname, hd1, hd2⟩ := hv
  obtain ⟨i, hi⟩ := getElem_of_mem (mem_of_lookup hlk)
  have hlt2 : i < s.cal_data.months.length := (List.getElem?_eq_some.mp hi).1
  have hdim : days_in_month s.cal_data s.month s.year
      = some (month_days s.cal_data mi s.year) := by
    rw [← hname]
    exact days_in_month_of_getElem hw hi s.year
  unfold succ_day at h
  rw [hdim, Option.some_bind] at h
  by_cases hlt : s.day < month_days s.cal_data mi s.year
  · rw [if_pos hlt, Option.some.injEq] at h
    subst h
    refine ⟨rfl, ⟨mi, hlk, hname, by show (1 : Int) ≤ s.day + 1; omega,
      by show s.day + 1 ≤ month_days s.cal_data mi s.year; omega⟩, ?_⟩
    unfold pred_day
    rw [if_pos (show (1 : Int) < s.day + 1 by omega)]
    refine congrArg some (Calendar.ext rfl ?_ rfl rfl)
    show s.day + 1 - 1 = s.day
    omega
  · rw [if_neg hlt] at h
    have hdeq : s.day = month_days s.cal_data mi s.year := by omega
    obtain ⟨k2, mi2, hj2, hroll⟩ := roll_forward_spec hw hi s.year
    by_cases hwrap : i + 1 = s.cal_data.months.length
    · rw [if_pos hwrap] at hj2 hroll
      rw [← hname, hroll, Option.map_some', Option.some.injEq] at h
      subst h
      refine ⟨rfl, ⟨mi2, lookup_of_getElem hw hj2, rfl, le_refl 1,
        month_days_pos hw (mem_of_getElem hj2) _⟩, ?_⟩
      obtain ⟨k3, mi3, hj3, hrollb⟩ := roll_backward_spec hw hj2 (s.year + 1)
      rw [if_pos rfl] at hj3 hrollb
      rw [show s.cal_data.months.length - 1 = i by omega, hi, Option.some.injEq,
        Prod.mk.injEq] at hj3
      obtain ⟨rfl, rfl⟩ := hj3
      rw [show s.year + 1 - 1 = s.year by omega] at hrollb
      unfold pred_day
      dsimp only
      rw [if_neg (show ¬((1 : Int) < 1) by omega), hrollb, Option.some_bind]
      dsimp only
      rw [days_in_month_of_getElem hw hi, Option.map_some', Option.some.injEq]
      exact Calendar.ext rfl hdeq.symm hname rfl
    · rw [if_neg hwrap] at hj2 hroll
      rw [← hname, hroll, Option.map_some', Option.some.injEq] at h
      subst h
      refine ⟨rfl, ⟨mi2, lookup_of_getElem hw hj2, rfl, le_refl 1,
        month_days_pos hw (mem_of_getElem hj2) _⟩, ?_⟩
      obtain ⟨k3, mi3, hj3, hrollb⟩ := roll_backward_spec hw hj2 s.year
      rw [if_neg (Nat.succ_ne_zero i)] at hj3 hrollb
      rw [Nat.add_sub_cancel, hi, Option.some.injEq, Prod.mk.injEq] at hj3
      obtain ⟨rfl, rfl⟩ := hj3
      unfold pred_day
      dsimp only
      rw [if_neg (show ¬((1 : Int) < 1) by omega), hrollb, Option.some_bind]
      dsimp only
      rw [days_in_month_of_getElem hw hi, Option.map_some', Option.some.injEq]
      exact Calendar.ext rfl hdeq.symm hname rfl

/-- Stepping one day backward from a valid state succeeds, preserves the
configuration and validity, and is undone by `succ_day`. -/
theorem pred_day_succ {s : Calendar} (hw : wf_cal s.cal_data) (hv : valid_state s)
    {r : Calendar} (h : pred_day s = some r) :
    r.cal_data = s.cal_data ∧ valid_state r ∧ succ_day r = some s := by
  obtain ⟨mi, hlk, hname, hd1, hd2⟩ := hv
  obtain ⟨i, hi⟩ := getElem_of_mem (mem_of_lookup hlk)
  have hlt2 : i < s.cal_data.months.length := (List.getElem?_eq_some.mp hi).1
  have hdim : days_in_month s.cal_data s.month s.year
      = some (month_days s.cal_data mi s.year) := by
    rw [← hname]
    exact days_in_month_of_getElem hw hi s.year
  unfold pred_day at h
  by_cases hgt : 1 < s.day
  · rw [if_pos hgt, Option.some.injEq] at h
    subst h
    refine ⟨rfl, ⟨mi, hlk, hname, by show (1 : Int) ≤ s.day - 1; omega,
      by show s.day - 1 ≤ month_days s.cal_data mi s.year; omega⟩, ?_⟩
    unfold succ_day
    dsimp only
    rw [hdim, Option.some_bind,
      if_pos (show s.day - 1 < month_days s.cal_data mi s.year by omega)]
    refine congrArg some (Calendar.ext rfl ?_ rfl rfl)
    show s.day - 1 + 1 = s.day
    omega
  · rw [if_neg hgt] at h
    have hdeq : s.day = 1 := by omega
    obtain ⟨k2, mi2, hj2, hrollb⟩ := roll_backward_spec hw hi s.year
    by_cases hzero : i = 0
    · subst hzero
      rw [if_pos rfl] at hj2 hrollb
      rw [← hname, hrollb, Option.some_bind] at h
      dsimp only at h
      rw [days_in_month_of_getElem hw hj2, Option.map_some', Option.some.injEq] at h
      subst h
      refine ⟨rfl, ⟨mi2, lookup_of_getElem hw hj2, rfl,
        month_days_pos hw (mem_of_getElem hj2) _, le_refl _⟩, ?_⟩
      unfold succ_day
      dsimp only
      rw [days_in_month_of_getElem hw hj2, Option.some_bind, if_neg (lt_irrefl _)]
      obtain ⟨k3, mi3, hj3, hroll⟩ := roll_forward_spec hw hj2 (s.year - 1)
      rw [if_pos (show s.cal_data.months.length - 1 + 1 = s.cal_data.months.length
        by omega)] at hj3 hroll
      rw [hi, Option.some.injEq, Prod.mk.injEq] at hj3
      obtain ⟨rfl, rfl⟩ := hj3
      rw [show s.year - 1 + 1 = s.year by omega] at hroll
      rw [hroll, Option.map_some', Option.some.injEq]
      exact Calendar.ext rfl hdeq.symm hname rfl
    · rw [if_neg hzero] at hj2 hrollb
      rw [← hname, hrollb, Option.some_bind] at h
      dsimp only at h
      rw [days_in_month_of_getElem hw hj2, Option.map_some', Option.some.injEq] at h
      subst h
      refine ⟨rfl, ⟨mi2, lookup_of_getElem hw hj2, rfl,
        month_days_pos hw (mem_of_getElem hj2) _, le_refl _⟩, ?_⟩
      unfold succ_day
      dsimp only
      rw [days_in_month_of_getElem hw hj2, Option.some_bind, if_neg (lt_irrefl _)]
      obtain ⟨k3, mi3, hj3, hroll⟩ := roll_forward_spec hw hj2 s.year
      rw [if_neg (show ¬(i - 1 + 1 = s.cal_data.months.length) by omega)] at hj3 hroll
      rw [show i - 1 + 1 = i by omega, hi, Option.some.injEq, Prod.mk.injEq] at hj3
      obtain ⟨rfl, rfl⟩ := hj3
      rw [hroll, Option.map_some', Option.some.injEq]
      exact Calendar.ext rfl hdeq.symm hname rfl

/-- Iterating `succ_day` composes additively. -/
theorem iter_succ_add (a b : Nat) : ∀ s : Calendar,
    iter_succ (a + b) s = (iter_succ a s).bind (iter_succ b) := by
  induction a with
  | zero => intro s; rw [Nat.zero_add, iter_succ, Option.some_bind]
  | succ a ih =>
    intro s
    rw [show a + 1 + b = (a + b) + 1 by omega]
    rw [iter_succ, iter_succ]
    cases hs : succ_day s with
    | none => simp
    | some t => simp only [Option.some_bind, ih t]

/-- Iterating `pred_day` composes additively. -/
theorem iter_pred_add (a b : Nat) : ∀ s : Calendar,
    iter_pred (a + b) s = (iter_pred a s).bind (iter_pred b) := by
  induction a with
  | zero => intro s; rw [Nat.zero_add, iter_pred, Option.some_bind]
  | succ a ih =>
    intro s
    rw [show a + 1 + b = (a + b) + 1 by omega]
    rw [iter_pred, iter_pred]
    cases hs : pred_day s with
    | none => simp
    | some t => simp only [Option.some_bind, ih t]

/-- The last step of an iterated `succ_day` run can be peeled off at the end. -/
theorem iter_succ_snoc (n : Nat) : ∀ s : Calendar,
    iter_succ (n + 1) s = (iter_succ n s).bind succ_day := by
  intro s
  rw [iter_succ_add n 1]
  cases hs : iter_succ n s with
  | none => rfl
  | some t =>
    rw [Option.some_bind, Option.some_bind, iter_succ]
    cases succ_day t with
    | none => rfl
    | some u => rw [Option.some_bind, iter_succ]

/-- The last step of an iterated `pred_day` run can be peeled off at the end. -/
theorem iter_pred_snoc (n : Nat) : ∀ s : Calendar,
    iter_pred (n + 1) s = (iter_pred n s).bind pred_day := by
  intro s
  rw [iter_pred_add n 1]
  cases hs : iter_pred n s with
  | none => rfl
  | some t =>
    rw [Option.some_bind, Option.some_bind, iter_pred]
    cases pred_day t with
    | none => rfl
    | some u => rw [Option.some_bind, iter_pred]

/-- `n` days forward from a valid state is undone by `n` days backward. -/
theorem iter_succ_inverse : ∀ (n : Nat) {s r : Calendar}, wf_cal s.cal_data →
    valid_state s → iter_succ n s = some r →
    r.cal_data = s.cal_data ∧ valid_state r ∧ iter_pred n r = some s := by
  intro n
  induction n with
  | zero =>
    intro s r _ hv h
    rw [iter_succ, Option.some.injEq] at h
    subst h
    exact ⟨rfl, hv, rfl⟩
  | succ n ih =>
    intro s r hw hv h
    rw [iter_succ, Option.bind_eq_some] at h
    obtain ⟨s1, hs1, hiter⟩ := h
    obtain ⟨hcd1, hv1, hpred1⟩ := succ_day_pred hw hv hs1
    have hw1 : wf_cal s1.cal_data := by rw [hcd1]; exact hw
    obtain ⟨hcd2, hv2, hpred2⟩ := ih hw1 hv1 hiter
    refine ⟨hcd2.trans hcd1, hv2, ?_⟩
    rw [iter_pred_snoc, hpred2, Option.some_bind, hpred1]

/-- `n` days backward from a valid state is undone by `n` days forward. -/
theorem iter_pred_inverse : ∀ (n : Nat) {s r : Calendar}, wf_cal s.cal_data →
    valid_state s → iter_pred n s = some r →
    r.cal_data = s.cal_data ∧ valid_state r ∧ iter_succ n r = some s := by
  intro n
  induction n with
  | zero =>
    intro s r _ hv h
    rw [iter_pred, Option.some.injEq] at h
    subst h
    exact ⟨rfl, hv, rfl⟩
  | succ n ih =>
    intro s r hw hv h
    rw [iter_pred, Option.bind_eq_some] at h
    obtain ⟨s1, hs1, hiter⟩ := h
    obtain ⟨hcd1, hv1, hsucc1⟩ := pred_day_succ hw hv hs1
    have hw1 : wf_cal s1.cal_data := by rw [hcd1]; exact hw
    obtain ⟨hcd2, hv2, hsucc2⟩ := ih hw1 hv1 hiter
    refine ⟨hcd2.trans hcd1, hv2, ?_⟩
    rw [iter_succ_snoc, hsucc2, Option.some_bind, hsucc1]

/-- Iterated `succ_day` inside one month just adds to the day. -/
theorem iter_succ_within : ∀ (k : Nat) (s : Calendar) (mi : MonthInfo),
    wf_cal s.cal_data → List.lookup (lower s.month) s.cal_data.months = some mi →
    mi.name = s.month → 1 ≤ s.day →
    s.day + (k : Int) ≤ month_days s.cal_data mi s.year →
    iter_succ k s = some { s with day := s.day + (k : Int) } := by
  intro k
  induction k with
  | zero =>
    intro s mi _ _ _ _ _
    rw [iter_succ]
    have h0 : ({ s with day := s.day + ((0 : Nat) : Int) } : Calendar) = s := by
      refine Calendar.ext rfl ?_ rfl rfl
      show s.day + ((0 : Nat) : Int) = s.day
      simp
    rw [h0]
  | succ k ih =>
    intro s mi hw hlk hname h1 h2
    have hdim : days_in_month s.cal_data s.month s.year
        = some (month_days s.cal_data mi s.year) := by
      rw [days_in_month, hlk]
      rfl
    rw [iter_succ]
    unfold succ_day
    rw [hdim, Option.some_bind,
      if_pos (show s.day < month_days s.cal_data mi s.year by push_cast at h2; omega),
      Option.some_bind]
    rw [ih { s with day := s.day + 1 } mi hw hlk hname
      (by show (1 : Int) ≤ s.day + 1; omega)
      (by show s.day + 1 + (k : Int) ≤ month_days s.cal_data mi s.year
          push_cast at h2
          omega)]
    refine congrArg some (Calendar.ext rfl ?_ rfl rfl)
    show s.day + 1 + (k : Int) = s.day + ((k + 1 : Nat) : Int)
    push_cast
    omega

/-- Iterated `pred_day` inside one month just subtracts from the day. -/
theorem iter_pred_within : ∀ (k : Nat) (s : Calendar), (k : Int) ≤ s.day - 1 →
    iter_pred k s = some { s with day := s.day - (k : Int) } := by
  intro k
  induction k with
  | zero =>
    intro s _
    rw [iter_pred]
    have h0 : ({ s with day := s.day - ((0 : Nat) : Int) } : Calendar) = s := by
      refine Calendar.ext rfl ?_ rfl rfl
      show s.day - ((0 : Nat) : Int) = s.day
      simp
    rw [h0]
  | succ k ih =>
    intro s h
    rw [iter_pred]
    unfold pred_day
    rw [if_pos (show (1 : Int) < s.day by push_cast at h; omega), Option.some_bind]
    rw [ih { s with day := s.day - 1 }
      (by show (k : Int) ≤ s.day - 1 - 1; push_cast at h; omega)]
    refine congrArg some (Calendar.ext rfl ?_ rfl rfl)
    show s.day - 1 - (k : Int) = s.day - ((k + 1 : Nat) : Int)
    push_cast
    omega

/-- The forward bleed-off loop computes iterated day successors: from a
month-aligned state with `0 ≤ day ≤ month length` and `days ≥ 1`, a
successful `bleed_forward` run is `day + days - 1` successor steps past the
first day of the current month, and lands on a valid state over the same
configuration. -/
theorem bleed_forward_iter :
    ∀ (fuel : Nat) (s : Calendar) (days : Int) (r : Calendar) (mi : MonthInfo),
      wf_cal s.cal_data →
      List.lookup (lower s.month) s.cal_data.months = some mi →
      mi.name = s.month →
      0 ≤ s.day → s.day ≤ month_days s.cal_data mi s.year → 1 ≤ days →
      bleed_forward fuel s days = some r →
      iter_succ (s.day + days - 1).toNat { s with day := 1 } = some r ∧
        valid_state r ∧ r.cal_data = s.cal_data := by
  intro fuel
  induction fuel with
  | zero => intro s days r mi _ _ _ _ _ _ h; cases h
  | succ fuel ih =>
    intro s days r mi hw hlk hname h0 hdm h1 h
    have hdim : days_in_month s.cal_data s.month s.year
        = some (month_days s.cal_data mi s.year) := by
      rw [days_in_month, hlk]
      rfl
    rw [bleed_forward, hdim] at h
    dsimp only at h
    have hmd1 : 1 ≤ month_days s.cal_data mi s.year :=
      month_days_pos hw (mem_of_lookup hlk) s.year
    by_cases hcase : month_days s.cal_data mi s.year < s.day + days
    · rw [if_pos hcase] at h
      obtain ⟨i, hi⟩ := getElem_of_mem (mem_of_lookup hlk)
      obtain ⟨k2, mi2, hj2, hroll⟩ := roll_forward_spec hw hi s.year
      set y2 := if i + 1 = s.cal_data.months.length then s.year + 1 else s.year with hy2
      rw [← hname, hroll] at h
      dsimp only at h
      have hlk2 : List.lookup (lower mi2.name) s.cal_data.months = some mi2 :=
        lookup_of_getElem hw hj2
      have hpos2 : 1 ≤ month_days s.cal_data mi2 y2 :=
        month_days_pos hw (mem_of_getElem hj2) _
      have ih' := ih { s with day := 0, month := mi2.name, year := y2 }
        (days - (month_days s.cal_data mi s.year - s.day)) r mi2 hw hlk2 rfl
        (le_refl 0)
        (by show (0 : Int) ≤ month_days s.cal_data mi2 y2; omega)
        (by omega) h
      obtain ⟨hiter2, hvr, hcdr⟩ := ih'
      dsimp only at hiter2 hcdr
      rw [show ((0 : Int) + (days - (month_days s.cal_data mi s.year - s.day)) - 1)
          = days - (month_days s.cal_data mi s.year - s.day) - 1 by omega] at hiter2
      refine ⟨?_, hvr, hcdr⟩
      set A := (month_days s.cal_data mi s.year - 1).toNat with hA
      set B := (days - (month_days s.cal_data mi s.year - s.day) - 1).toNat with hB
      have hsplit : (s.day + days - 1).toNat = A + (B + 1) := by omega
      rw [hsplit, iter_succ_add]
      rw [iter_succ_within A { s with day := 1 } mi hw hlk hname (le_refl 1)
        (by show (1 : Int) + (A : Int) ≤ month_days s.cal_data mi s.year; omega)]
      rw [Option.some_bind]
      dsimp only
      rw [show (1 : Int) + (A : Int) = month_days s.cal_data mi s.year by omega]
      rw [iter_succ]
      have hsucc : succ_day ({ s with day := month_days s.cal_data mi s.year } : Calendar)
          = some { s with day := 1, month := mi2.name, year := y2 } := by
        unfold succ_day
        dsimp only
        rw [hdim, Option.some_bind, if_neg (lt_irrefl _), ← hname, hroll,
          Option.map_some']
      rw [hsucc, Option.some_bind]
      exact hiter2
    · rw [if_neg hcase, Option.some.injEq] at h
      subst h
      refine ⟨?_, ⟨mi, hlk, hname, by show (1 : Int) ≤ s.day + days; omega,
        by show s.day + days ≤ month_days s.cal_data mi s.year; omega⟩, rfl⟩
      rw [iter_succ_within (s.day + days - 1).toNat { s with day := 1 } mi hw hlk hname
        (le_refl 1)
        (by show (1 : Int) + ((s.day + days - 1).toNat : Int)
              ≤ month_days s.cal_data mi s.year
            omega)]
      refine congrArg some (Calendar.ext rfl ?_ rfl rfl)
      show (1 : Int) + ((s.day + days - 1).toNat : Int) = s.day + days
      omega

/-- The backward bleed-off loop computes iterated day predecessors: from a
valid state with `days ≥ 0`, a successful `bleed_backward` run is exactly
`days` predecessor steps, and lands on a valid state over the same
configuration. -/
theorem bleed_backward_iter :
    ∀ (fuel : Nat) (s : Calendar) (days : Int) (r : Calendar) (mi : MonthInfo),
      wf_cal s.cal_data →
      List.lookup (lower s.month) s.cal_data.months = some mi →
      mi.name = s.month →
      1 ≤ s.day → s.day ≤ month_days s.cal_data mi s.year → 0 ≤ days →
      bleed_backward fuel s days = some r →
      iter_pred days.toNat s = some r ∧ valid_state r ∧ r.cal_data = s.cal_data := by
  intro fuel
  induction fuel with
  | zero => intro s days r mi _ _ _ _ _ _ h; cases h
  | succ fuel ih =>
    intro s days r mi hw hlk hname h1 hdm h0 h
    rw [bleed_backward] at h
    by_cases hcase : s.day - days < 1
    · rw [if_pos hcase] at h
      obtain ⟨i, hi⟩ := getElem_of_mem (mem_of_lookup hlk)
      obtain ⟨k2, mi2, hj2, hrollb⟩ := roll_backward_spec hw hi s.year
      set y2 := if i = 0 then s.year - 1 else s.year with hy2
      rw [← hname, hrollb] at h
      dsimp only at h
      rw [days_in_month_of_getElem hw hj2] at h
      dsimp only at h
      have hlk2 : List.lookup (lower mi2.name) s.cal_data.months = some mi2 :=
        lookup_of_getElem hw hj2
      have hpos2 : 1 ≤ month_days s.cal_data mi2 y2 :=
        month_days_pos hw (mem_of_getElem hj2) _
      have ih' := ih ⟨s.cal_data, month_days s.cal_data mi2 y2, mi2.name, y2⟩
        (days - s.day) r mi2 hw hlk2 rfl
        (by show (1 : Int) ≤ month_days s.cal_data mi2 y2; omega)
        (le_refl _)
        (by omega) h
      obtain ⟨hiter2, hvr, hcdr⟩ := ih'
      dsimp only at hiter2 hcdr
      refine ⟨?_, hvr, hcdr⟩
      have hsplit : days.toNat = (s.day - 1).toNat + ((days - s.day).toNat + 1) := by
        omega
      rw [hsplit, iter_pred_add]
      rw [iter_pred_within (s.day - 1).toNat s (by omega)]
      rw [Option.some_bind]
      rw [show s.day - ((s.day - 1).toNat : Int) = 1 by omega]
      rw [iter_pred]
      have hpred : pred_day ({ s with day := (1 : Int) } : Calendar)
          = some ⟨s.cal_data, month_days s.cal_data mi2 y2, mi2.name, y2⟩ := by
        unfold pred_day
        dsimp only
        rw [if_neg (show ¬((1 : Int) < 1) by omega), ← hname, hrollb, Option.some_bind]
        dsimp only
        rw [days_in_month_of_getElem hw hj2, Option.map_some']
      rw [hpred, Option.some_bind]
      exact hiter2
    · rw [if_neg hcase, Option.some.injEq] at h
      subst h
      refine ⟨?_, ⟨mi, hlk, hname, by show (1 : Int) ≤ s.day - days; omega,
        by show s.day - days ≤ month_days s.cal_data mi s.year; omega⟩, rfl⟩
      rw [iter_pred_within days.toNat s (by omega)]
      refine congrArg some (Calendar.ext rfl ?_ rfl rfl)
      show s.day - (days.toNat : Int) = s.day - days
      omega

/-- The forward bleed-off loop terminates: fuel `days + day + 1` suffices,
because each iteration removes at least one remaining day once the day has
been reset to the start of a month. -/
theorem bleed_forward_total :
    ∀ (b : Nat) (s : Calendar) (days : Int) (mi : MonthInfo),
      wf_cal s.cal_data →
      List.lookup (lower s.month) s.cal_data.months = some mi →
      mi.name = s.month →
      0 ≤ s.day → s.day ≤ month_days s.cal_data mi s.year → 1 ≤ days →
      (days + s.day).toNat ≤ b →
      ∃ r, bleed_forward (b + 1) s days = some r := by
  intro b
  induction b with
  | zero =>
    intro s days mi _ _ _ h0 _ h1 hb
    exfalso
    omega
  | succ b ih =>
    intro s days mi hw hlk hname h0 hdm h1 hb
    have hdim : days_in_month s.cal_data s.month s.year
        = some (month_days s.cal_data mi s.year) := by
      rw [days_in_month, hlk]
      rfl
    rw [bleed_forward, hdim]
    dsimp only
    have hmd1 : 1 ≤ month_days s.cal_data mi s.year :=
      month_days_pos hw (mem_of_lookup hlk) s.year
    by_cases hcase : month_days s.cal_data mi s.year < s.day + days
    · obtain ⟨i, hi⟩ := getElem_of_mem (mem_of_lookup hlk)
      obtain ⟨k2, mi2, hj2, hroll⟩ := roll_forward_spec hw hi s.year
      set y2 := if i + 1 = s.cal_data.months.length then s.year + 1 else s.year with hy2
      rw [if_pos hcase, ← hname, hroll]
      dsimp only
      have hpos2 : 1 ≤ month_days s.cal_data mi2 y2 :=
        month_days_pos hw (mem_of_getElem hj2) _
      exact ih { s with day := 0, month := mi2.name, year := y2 }
        (days - (month_days s.cal_data mi s.year - s.day)) mi2 hw
        (lookup_of_getElem hw hj2) rfl (le_refl 0)
        (by show (0 : Int) ≤ month_days s.cal_data mi2 y2; omega)
        (by omega)
        (by show ((days - (month_days s.cal_data mi s.year - s.day)) + (0 : Int)).toNat ≤ b
            omega)
    · rw [if_neg hcase]
      exact ⟨_, rfl⟩

/-- The backward bleed-off loop terminates: fuel `days + 1` suffices, because
each iteration removes at least one remaining day (the current day is always
at least 1). -/
theorem bleed_backward_total :
    ∀ (b : Nat) (s : Calendar) (days : Int) (mi : MonthInfo),
      wf_cal s.cal_data →
      List.lookup (lower s.month) s.cal_data.months = some mi →
      mi.name = s.month →
      1 ≤ s.day → s.day ≤ month_days s.cal_data mi s.year → 0 ≤ days →
      days.toNat ≤ b →
      ∃ r, bleed_backward (b + 1) s days = some r := by
  intro b
  induction b with
  | zero =>
    intro s days mi _ _ _ h1 _ h0 hb
    rw [bleed_backward, if_neg (show ¬(s.day - days < 1) by omega)]
    exact ⟨_, rfl⟩
  | succ b ih =>
    intro s days mi hw hlk hname h1 hdm h0 hb
    rw [bleed_backward]
    by_cases hcase : s.day - days < 1
    · obtain ⟨i, hi⟩ := getElem_of_mem (mem_of_lookup hlk)
      obtain ⟨k2, mi2, hj2, hrollb⟩ := roll_backward_spec hw hi s.year
      set y2 := if i = 0 then s.year - 1 else s.year with hy2
      rw [if_pos hcase, ← hname, hrollb]
      dsimp only
      rw [days_in_month_of_getElem hw hj2]
      dsimp only
      have hpos2 : 1 ≤ month_days s.cal_data mi2 y2 :=
        month_days_pos hw (mem_of_getElem hj2) _
      exact ih ⟨s.cal_data, month_days s.cal_data mi2 y2, mi2.name, y2⟩
        (days - s.day) mi2 hw (lookup_of_getElem hw hj2) rfl
        (by show (1 : Int) ≤ month_days s.cal_data mi2 y2; omega)
        (le_refl _) (by omega) (by omega)
    · rw [if_neg hcase]
      exact ⟨_, rfl⟩

/-- Claim C8: for every well-formed configuration (in particular every month
has at least one day) and every valid current date, `adjust_date` terminates
for every integer argument: some fuel bound makes the bleed-off loop finish. -/
theorem claim_C8 (s : Calendar) (days : Int) (hw : wf_cal s.cal_data)
    (hv : valid_state s) :
    ∃ fuel r, Calendar.adjust_date fuel s days = some r := by
  obtain ⟨mi, hlk, hname, h1, h2⟩ := hv
  rcases lt_trichotomy days 0 with hneg | rfl | hpos
  · obtain ⟨r, hr⟩ := bleed_backward_total (-days).toNat s (-days) mi hw hlk hname h1 h2
      (by omega) (le_refl _)
    refine ⟨(-days).toNat + 1, r, ?_⟩
    rw [Calendar.adjust_date, if_neg (by omega : ¬((0 : Int) < days)), if_pos hneg]
    exact hr
  · refine ⟨0, s, ?_⟩
    rw [Calendar.adjust_date, if_neg (lt_irrefl 0), if_neg (lt_irrefl 0)]
  · obtain ⟨r, hr⟩ := bleed_forward_total (days + s.day).toNat s days mi hw hlk hname
      (by omega) h2 (by omega) (le_refl _)
    refine ⟨(days + s.day).toNat + 1, r, ?_⟩
    rw [Calendar.adjust_date, if_pos hpos]
    exact hr

/-- Witness for C8: from the example calendar's default date, an adjustment
by 100 days terminates. -/
theorem claim_C8_witness :
    ∃ fuel r, Calendar.adjust_date fuel ex_calendar 100 = some r :=
  claim_C8 ex_calendar 100 (by decide)
    ⟨⟨"jan", 31, none⟩, rfl, rfl, by decide, by decide⟩

/-- A successful forward bleed-off run, re-based from the state itself rather
than from the first day of its month. -/
theorem iter_succ_from_valid {s r : Calendar} {days : Int} (mi : MonthInfo)
    (hw : wf_cal s.cal_data)
    (hlk : List.lookup (lower s.month) s.cal_data.months = some mi)
    (hname : mi.name = s.month) (h1 : 1 ≤ s.day)
    (h2 : s.day ≤ month_days s.cal_data mi s.year) (hd : 1 ≤ days)
    (hiter : iter_succ (s.day + days - 1).toNat { s with day := 1 } = some r) :
    iter_succ days.toNat s = some r := by
  have hwithin := iter_succ_within (s.day - 1).toNat { s with day := 1 } mi hw hlk hname
    (le_refl 1)
    (by show (1 : Int) + ((s.day - 1).toNat : Int) ≤ month_days s.cal_data mi s.year
        omega)
  have hsplit : (s.day + days - 1).toNat = (s.day - 1).toNat + days.toNat := by omega
  rw [hsplit, iter_succ_add, hwithin, Option.some_bind] at hiter
  dsimp only at hiter
  rw [show (1 : Int) + ((s.day - 1).toNat : Int) = s.day by omega] at hiter
  exact hiter

/-- Claim C2: from any valid starting date of a well-formed calendar, any two
successful runs `adjust_date(n)` then `adjust_date(-n)` (any fuel) restore
the calendar state exactly. -/
theorem claim_C2 (s : Calendar) (n : Int) (f g : Nat) (r t : Calendar)
    (hw : wf_cal s.cal_data) (hv : valid_state s)
    (h1 : Calendar.adjust_date f s n = some r)
    (h2 : Calendar.adjust_date g r (-n) = some t) :
    t = s := by
  rcases lt_trichotomy n 0 with hneg | rfl | hpos
  · rw [Calendar.adjust_date, if_neg (by omega : ¬((0 : Int) < n)), if_pos hneg] at h1
    obtain ⟨mi, hlk, hname, hb1, hb2⟩ := hv
    have hv2 : valid_state s := ⟨mi, hlk, hname, hb1, hb2⟩
    obtain ⟨hiter, hvr, hcdr⟩ := bleed_backward_iter f s (-n) r mi hw hlk hname hb1 hb2
      (by omega) h1
    rw [Calendar.adjust_date, if_pos (by omega : (0 : Int) < -n)] at h2
    have hwr : wf_cal r.cal_data := by rw [hcdr]; exact hw
    obtain ⟨mir, hlkr, hnamer, hr1, hr2⟩ := hvr
    obtain ⟨hiter2, hvt, hcdt⟩ := bleed_forward_iter g r (-n) t mir hwr hlkr hnamer
      (by omega) hr2 (by omega) h2
    have hcomb : iter_succ (-n).toNat r = some t :=
      iter_succ_from_valid mir hwr hlkr hnamer hr1 hr2 (by omega) hiter2
    obtain ⟨-, -, hback⟩ := iter_pred_inverse (-n).toNat hw hv2 hiter
    exact Option.some_inj.mp (hcomb.symm.trans hback)
  · rw [Calendar.adjust_date, if_neg (lt_irrefl 0), if_neg (lt_irrefl 0),
      Option.some.injEq] at h1
    subst h1
    rw [neg_zero, Calendar.adjust_date, if_neg (lt_irrefl 0), if_neg (lt_irrefl 0),
      Option.some.injEq] at h2
    exact h2.symm
  · rw [Calendar.adjust_date, if_pos hpos] at h1
    obtain ⟨mi, hlk, hname, hb1, hb2⟩ := hv
    have hv2 : valid_state s := ⟨mi, hlk, hname, hb1, hb2⟩
    obtain ⟨hiter, hvr, hcdr⟩ := bleed_forward_iter f s n r mi hw hlk hname
      (by omega) hb2 (by omega) h1
    have hfwd : iter_succ n.toNat s = some r :=
      iter_succ_from_valid mi hw hlk hname hb1 hb2 (by omega) hiter
    rw [Calendar.adjust_date, if_neg (by omega : ¬((0 : Int) < -n)),
      if_pos (by omega : -n < 0), neg_neg] at h2
    have hwr : wf_cal r.cal_data := by rw [hcdr]; exact hw
    obtain ⟨mir, hlkr, hnamer, hr1, hr2⟩ := hvr
    obtain ⟨hiter2, hvt, hcdt⟩ := bleed_backward_iter g r n t mir hwr hlkr hnamer hr1 hr2
      (by omega) h2
    obtain ⟨-, -, hback⟩ := iter_succ_inverse n.toNat hw hv2 hfwd
    exact Option.some_inj.mp (hiter2.symm.trans hback)

/-- Witness for C2: from 1 jan 2020 in the example calendar, adjusting by
40 days reaches 10 feb 2020, and adjusting by -40 days returns to 1 jan
2020. -/
theorem claim_C2_witness : (⟨ex_cal_data, 1, "jan", 2020⟩ : Calendar) = ex_calendar :=
  claim_C2 ex_calendar 40 5 5 ⟨ex_cal_data, 10, "feb", 2020⟩
    ⟨ex_cal_data, 1, "jan", 2020⟩ (by decide)
    ⟨⟨"jan", 31, none⟩, rfl, rfl, by decide, by decide⟩ rfl rfl

/-! ### Claims C4, C5, C9, C10: the Almanac -/

/-- Behaviour of the `try/except ValueError` wrapper shared by the four
public almanac methods, given that the hour-angle cosine is defined: the
result is `ok none` exactly when the cosine falls outside `[-1, 1]`, is an
`ok some` pair otherwise, and is never a propagated error. -/
theorem try_calc_spec (a : Almanac) (dep dir : ℝ) (date : Date) (lat : ℝ) (c : ℝ)
    (h : a.cos_hour_angle dep date lat = some c) :
    (a.try_calc dep dir date lat = .ok none ↔ (c < -1 ∨ 1 < c)) ∧
    (¬(c < -1 ∨ 1 < c) → ∃ p, a.try_calc dep dir date lat = .ok (some p)) ∧
    a.try_calc dep dir date lat ≠ .value_error ∧
    a.try_calc dep dir date lat ≠ .crash := by
  unfold Almanac.try_calc Almanac.calc_time Almanac.hour_angle
  rw [h]
  dsimp only
  by_cases hc : c < -1 ∨ 1 < c
  · rw [if_pos hc]
    exact ⟨by simp [hc], fun hn => absurd hc hn, by simp, by simp⟩
  · rw [if_neg hc]
    refine ⟨?_, fun _ => ?_, ?_, ?_⟩ <;> dsimp only <;> split_ifs <;> simp [hc]

/-- Claim C4: whenever the hour-angle cosine of the respective event is
defined (the date-side computation succeeds), each of `dawn`, `sunrise`,
`sunset`, `dusk` returns the no-event result exactly when that cosine falls
outside `[-1, 1]` (polar day or polar night), returns a `(Time, Date)` pair
otherwise, and never lets the domain failure (or any failure) propagate. -/
theorem claim_C4 (a : Almanac) (date : Date) (latitude depression : ℝ) (cd cs : ℝ)
    (hcd : a.cos_hour_angle (eff_depression depression) date latitude = some cd)
    (hcs : a.cos_hour_angle (-0.833) date latitude = some cs) :
    ((a.dawn date latitude depression = .ok none ↔ (cd < -1 ∨ 1 < cd)) ∧
      (¬(cd < -1 ∨ 1 < cd) → ∃ p, a.dawn date latitude depression = .ok (some p)) ∧
      a.dawn date latitude depression ≠ .value_error ∧
      a.dawn date latitude depression ≠ .crash) ∧
    ((a.sunrise date latitude = .ok none ↔ (cs < -1 ∨ 1 < cs)) ∧
      (¬(cs < -1 ∨ 1 < cs) → ∃ p, a.sunrise date latitude = .ok (some p)) ∧
      a.sunrise date latitude ≠ .value_error ∧
      a.sunrise date latitude ≠ .crash) ∧
    ((a.sunset date latitude = .ok none ↔ (cs < -1 ∨ 1 < cs)) ∧
      (¬(cs < -1 ∨ 1 < cs) → ∃ p, a.sunset date latitude = .ok (some p)) ∧
      a.sunset date latitude ≠ .value_error ∧
      a.sunset date latitude ≠ .crash) ∧
    ((a.dusk date latitude depression = .ok none ↔ (cd < -1 ∨ 1 < cd)) ∧
      (¬(cd < -1 ∨ 1 < cd) → ∃ p, a.dusk date latitude depression = .ok (some p)) ∧
      a.dusk date latitude depression ≠ .value_error ∧
      a.dusk date latitude depression ≠ .crash) :=
  ⟨try_calc_spec a (eff_depression depression) rising date latitude cd hcd,
    try_calc_spec a (-0.833) rising date latitude cs hcs,
    try_calc_spec a (-0.833) setting date latitude cs hcs,
    try_calc_spec a (eff_depression depression) setting date latitude cd hcd⟩

/-- Witness for C4 at the example almanac on the winter solstice at the
equator: in particular `sunrise` does not propagate the domain error. -/
theorem claim_C4_witness :
    Almanac.sunrise ex_almanac ⟨21, "dec", 2020⟩ 0 ≠ .value_error := by
  have hcd : ex_almanac.cos_hour_angle (eff_depression 0) ⟨21, "dec", 2020⟩ 0
      = some ((ex_almanac.cos_hour_angle depression_civil ⟨21, "dec", 2020⟩ 0).getD 0) := by
    rw [show eff_depression 0 = depression_civil from if_pos rfl]
    rfl
  have hcs : ex_almanac.cos_hour_angle (-0.833) ⟨21, "dec", 2020⟩ 0
      = some ((ex_almanac.cos_hour_angle (-0.833) ⟨21, "dec", 2020⟩ 0).getD 0) := rfl
  exact ((claim_C4 ex_almanac ⟨21, "dec", 2020⟩ 0 0 _ _ hcd hcs).2.1).2.2.1

/-- Claim C5: the solar declination is
`-axial_tilt * cos(radians(days_since_ws * 360 / solar_days_in_year))`, with
`days_since_ws` counted from the most recent winter-solstice anchor
(`ws_anchor`: the same-year solstice when the date is on/after the configured
solstice day in that month, else the previous year's); for a nonnegative
axial tilt its magnitude never exceeds the tilt. -/
theorem claim_C5 (a : Almanac) (date : Date) (ds : Int) (decl : ℝ)
    (htilt : 0 ≤ a.axial_tilt)
    (hds : a.calendar.days_since_date (ws_anchor a date) date = some ds)
    (hdecl : a.solar_declination date = some decl) :
    decl = -a.axial_tilt *
        Real.cos (radians ((ds : ℝ) * (360 / a.solar_days_in_year))) ∧
      |decl| ≤ a.axial_tilt := by
  unfold Almanac.solar_declination at hdecl
  rw [hds, Option.map_some', Option.some.injEq] at hdecl
  subst hdecl
  constructor
  · rfl
  · show |-a.axial_tilt * Real.cos (radians ((ds : ℝ) * (360 / a.solar_days_in_year)))|
      ≤ a.axial_tilt
    rw [abs_mul, abs_neg, abs_of_nonneg htilt]
    exact mul_le_of_le_one_right htilt (Real.abs_cos_le_one _)

/-- Witness for C5 at the example almanac on the winter solstice itself
(`days_since_ws = 0`). -/
theorem claim_C5_witness :
    (ex_almanac.solar_declination ⟨21, "dec", 2020⟩).getD 0
        = -ex_almanac.axial_tilt *
          Real.cos (radians (((0 : Int) : ℝ) * (360 / ex_almanac.solar_days_in_year))) ∧
      |(ex_almanac.solar_declination ⟨21, "dec", 2020⟩).getD 0| ≤ ex_almanac.axial_tilt := by
  have htilt : (0 : ℝ) ≤ ex_almanac.axial_tilt := by
    show (0 : ℝ) ≤ (23.5 : ℝ)
    norm_num
  have hds : ex_almanac.calendar.days_since_date
      (ws_anchor ex_almanac ⟨21, "dec", 2020⟩) ⟨21, "dec", 2020⟩ = some 0 := rfl
  have hdecl : ex_almanac.solar_declination ⟨21, "dec", 2020⟩
      = some ((ex_almanac.solar_declination ⟨21, "dec", 2020⟩).getD 0) := rfl
  exact claim_C5 ex_almanac ⟨21, "dec", 2020⟩ 0 _ htilt hds hdecl

/-- Claim C10: passing an explicit depression of `0` to `dawn` or `dusk` is
the same as passing no depression argument (whose default is `0`): the falsy
zero is replaced by the civil-twilight constant `-6`, so a zero-depression
event cannot be requested through these methods. -/
theorem claim_C10 (a : Almanac) (date : Date) (latitude : ℝ) :
    a.dawn date latitude 0 = a.dawn date latitude depression_civil ∧
    a.dusk date latitude 0 = a.dusk date latitude depression_civil ∧
    depression_civil = -6 := by
  have h0 : eff_depression 0 = depression_civil := if_pos rfl
  have hc : eff_depression depression_civil = depression_civil :=
    if_neg (by norm_num [depression_civil])
  refine ⟨?_, ?_, rfl⟩
  · unfold Almanac.dawn
    rw [h0, hc]
  · unfold Almanac.dusk
    rw [h0, hc]

/-- Claim C9: whenever `calc_time` succeeds it returns a `Date` with the
input's month and year and a day equal to the input day, or one more, or one
less — the rollover is not month/year-aware.  Concretely, on 31 dec 2020
(flat-axis configuration, latitude 0, depression -90, setting direction) the
computed hour overflows the day and `calc_time` returns day 32 of december,
which violates the `Date` invariant (december has 31 days). -/
theorem claim_C9 :
    (∀ (a : Almanac) (depression direction latitude : ℝ) (date : Date) (t : Time)
        (d2 : Date),
        a.calc_time depression direction date latitude = .ok (t, d2) →
        d2.month = date.month ∧ d2.year = date.year ∧
          (d2.day = date.day - 1 ∨ d2.day = date.day ∨ d2.day = date.day + 1)) ∧
    flat_almanac.calc_time (-90) (-1) ⟨31, "dec", 2020⟩ 0 =
      .ok (⟨0, 0⟩, ⟨32, "dec", 2020⟩) ∧
    date_is_valid flat_cal_data 32 "dec" 2020 = false := by
  refine ⟨?_, ?_, by decide⟩
  · intro a depression direction latitude date t d2 h
    unfold Almanac.calc_time at h
    cases hha : a.hour_angle depression date latitude with
    | crash => rw [hha] at h; simp at h
    | value_error => rw [hha] at h; simp at h
    | ok ha =>
      rw [hha] at h
      dsimp only at h
      split_ifs at h with hA hB
      · rw [PyRes.ok.injEq, Prod.mk.injEq] at h
        obtain ⟨-, h2⟩ := h
        rw [← h2]
        exact ⟨rfl, rfl, Or.inr (Or.inr rfl)⟩
      · rw [PyRes.ok.injEq, Prod.mk.injEq] at h
        obtain ⟨-, h2⟩ := h
        rw [← h2]
        exact ⟨rfl, rfl, Or.inl rfl⟩
      · rw [PyRes.ok.injEq, Prod.mk.injEq] at h
        obtain ⟨-, h2⟩ := h
        rw [← h2]
        exact ⟨rfl, rfl, Or.inr (Or.inl rfl)⟩
  · have hdecl : flat_almanac.solar_declination ⟨31, "dec", 2020⟩ = some 0 := by
      have hds : flat_almanac.calendar.days_since_date
          (ws_anchor flat_almanac ⟨31, "dec", 2020⟩) ⟨31, "dec", 2020⟩ = some 10 := rfl
      unfold Almanac.solar_declination
      rw [hds, Option.map_some', Option.some.injEq]
      dsimp only
      rw [show flat_almanac.axial_tilt = 0 from rfl]
      norm_num
    have hcha : flat_almanac.cos_hour_angle (-90) ⟨31, "dec", 2020⟩ 0 = some (-1) := by
      unfold Almanac.cos_hour_angle
      rw [hdecl, Option.map_some', Option.some.injEq]
      rw [show radians 0 = 0 by unfold radians; ring]
      rw [show radians (-90) = -(Real.pi / 2) by unfold radians; ring]
      rw [Real.sin_zero, Real.cos_zero, Real.sin_neg, Real.sin_pi_div_two]
      norm_num
    have hha : flat_almanac.hour_angle (-90) ⟨31, "dec", 2020⟩ 0 = .ok 180 := by
      unfold Almanac.hour_angle
      rw [hcha]
      dsimp only
      rw [if_neg (show ¬((-1 : ℝ) < -1 ∨ (1 : ℝ) < -1) by norm_num)]
      rw [Real.arccos_neg_one]
      congr 1
      unfold degrees
      rw [mul_comm, mul_div_assoc, div_self Real.pi_ne_zero, mul_one]
    unfold Almanac.calc_time
    rw [hha]
    dsimp only
    rw [show flat_almanac.hours_in_day = 24 from rfl,
      show flat_almanac.minutes_in_hour = 60 from rfl]
    have hutc : ((24 : Int) : ℝ) / 2 * ((60 : Int) : ℝ) + 4 * -(-1 * 180) = 1440 := by
      push_cast
      norm_num
    rw [hutc]
    have hq : (1440 : ℝ) / ((60 : Int) : ℝ) = ((24 : Int) : ℝ) := by
      push_cast
      norm_num
    rw [hq, Int.floor_intCast]
    rw [if_pos (show (24 : Int) - 1 < 24 by decide)]
    have hmin : py_int (1440 - ((60 : Int) : ℝ) * ((24 : Int) : ℝ)) = 0 := by
      rw [show (1440 : ℝ) - ((60 : Int) : ℝ) * ((24 : Int) : ℝ) = 0 by push_cast; norm_num]
      unfold py_int
      rw [if_pos (le_refl (0 : ℝ))]
      exact Int.floor_zero
    rw [hmin]
    decide

/-- Witness for C9: the frame property applied at the concrete boundary run
of the theorem's second component. -/
theorem claim_C9_witness :
    (⟨32, "dec", 2020⟩ : Date).month = (⟨31, "dec", 2020⟩ : Date).month ∧
    (⟨32, "dec", 2020⟩ : Date).year = (⟨31, "dec", 2020⟩ : Date).year ∧
    ((⟨32, "dec", 2020⟩ : Date).day = (⟨31, "dec", 2020⟩ : Date).day - 1 ∨
      (⟨32, "dec", 2020⟩ : Date).day = (⟨31, "dec", 2020⟩ : Date).day ∨
      (⟨32, "dec", 2020⟩ : Date).day = (⟨31, "dec", 2020⟩ : Date).day + 1) :=
  claim_C9.1 flat_almanac (-90) (-1) 0 ⟨31, "dec", 2020⟩ ⟨0, 0⟩ ⟨32, "dec", 2020⟩
    claim_C9.2.1

end DM
